import Mathlib

set_option maxHeartbeats 1000000

/-! Verification development for the Enda repository.

The repository's only source file is `src/conanfile.py`, a Conan build
recipe for a C++ library named "Efficient NdArray" (Enda).  The first part
of this file is a shallow embedding of that recipe: its inventory of
declarations and its `config_options`, `validate` and `generate` steps.
The second part is a model, built from the specification's own words, of
the NdArray core (shapes, strides, layout resolution, slicing,
broadcasting) that the specification describes; that core has no code in
the repository, so the model follows the specification. -/

/-! Part 1: shallow embedding of src/conanfile.py. -/

/-- Concern classification for a declaration of the repository's source. -/
inductive SourceConcern
  | compiling
  | testing
  | installing
  | arrayTypeDefinition
  | indexingRoutine
  | memoryLayoutRoutine
deriving DecidableEq

/-- Kind of a source declaration: a type (class) or a function (method). -/
inductive SourceDeclKind
  | typeDef
  | functionDef
deriving DecidableEq

/-- One type or function declared in the repository's source. -/
structure SourceDecl where
  declName : String
  kind : SourceDeclKind
  concern : SourceConcern
deriving DecidableEq

/-- Inventory of every type and every function defined in
`src/conanfile.py`: the Conan recipe class `Enda` and its seven methods
`config_options`, `configure`, `layout`, `validate`, `generate`, `build`
and `package`.  The class attributes (`name`, `version`, `options`,
`test_requires`, ...) are data, not types or functions. -/
def endaSourceDecls : List SourceDecl :=
  [ ⟨"Enda", SourceDeclKind.typeDef, SourceConcern.installing⟩,
    ⟨"Enda.config_options", SourceDeclKind.functionDef, SourceConcern.compiling⟩,
    ⟨"Enda.configure", SourceDeclKind.functionDef, SourceConcern.compiling⟩,
    ⟨"Enda.layout", SourceDeclKind.functionDef, SourceConcern.compiling⟩,
    ⟨"Enda.validate", SourceDeclKind.functionDef, SourceConcern.compiling⟩,
    ⟨"Enda.generate", SourceDeclKind.functionDef, SourceConcern.compiling⟩,
    ⟨"Enda.build", SourceDeclKind.functionDef, SourceConcern.compiling⟩,
    ⟨"Enda.package", SourceDeclKind.functionDef, SourceConcern.installing⟩ ]

/-- Tells whether a source concern is one of compiling, testing or
installing (as opposed to defining array logic). -/
def buildConcern (c : SourceConcern) : Bool :=
  match c with
  | SourceConcern.compiling => true
  | SourceConcern.testing => true
  | SourceConcern.installing => true
  | _ => false

/-- Tells whether a source declaration defines an array type, an indexing
routine or a memory-layout routine. -/
def arrayLogicConcern (c : SourceConcern) : Bool :=
  match c with
  | SourceConcern.arrayTypeDefinition => true
  | SourceConcern.indexingRoutine => true
  | SourceConcern.memoryLayoutRoutine => true
  | _ => false

/-- Conan settings visible to the recipe: `os`, `compiler`,
`compiler.version`, `compiler.cppstd`, `build_type`, `arch`. -/
structure ConanSettings where
  os : String
  compiler : String
  compilerVersion : Nat
  cppstd : Nat
  build_type : String
  arch : String
deriving DecidableEq

/-- Errors a Conan recipe step may raise. -/
inductive ConanError
  | InvalidConfiguration (msg : String)
deriving DecidableEq

/-- Modelled from the spec: `check_min_cppstd` is Conan library code, not
part of the repository; per its documented purpose it rejects (with a
`ConanInvalidConfiguration` error) every configuration whose C++ standard
is below the requested minimum. -/
def check_min_cppstd (s : ConanSettings) (minimum : Nat) : Except ConanError Unit :=
  if s.cppstd < minimum then
    Except.error (ConanError.InvalidConfiguration "current cppstd is below the required minimum")
  else Except.ok ()

/-- Embeds `Enda.validate` of src/conanfile.py: first `check_min_cppstd(self, "20")`,
then `raise ConanInvalidConfiguration("GCC < 9 is not supported.")` when the
compiler is gcc with version below 9. -/
def Enda.validate (s : ConanSettings) : Except ConanError Unit := do
  check_min_cppstd s 20
  if s.compiler = "gcc" ∧ s.compilerVersion < 9 then
    Except.error (ConanError.InvalidConfiguration "GCC < 9 is not supported.")
  else Except.ok ()

/-- Recipe options; a deleted option is `none`. -/
structure ConanOptions where
  shared : Option Bool
  fPIC : Option Bool
deriving DecidableEq

/-- Embeds the recipe's `default_options` dictionary:
`shared = True`, `fPIC = True`. -/
def default_options : ConanOptions :=
  { shared := some true, fPIC := some true }

/-- Configuration state a recipe step acts on: settings plus options. -/
structure RecipeState where
  settings : ConanSettings
  options : ConanOptions
deriving DecidableEq

/-- Embeds `Enda.config_options` of src/conanfile.py:
`if self.settings.os == "Windows": del self.options.fPIC`. -/
def Enda.config_options (st : RecipeState) : RecipeState :=
  if st.settings.os = "Windows" then
    { st with options := { st.options with fPIC := none } }
  else st

/-- CMake toolchain variables produced by the `generate` step. -/
structure CMakeToolchainVars where
  tcVars : List (String × Bool)
deriving DecidableEq

/-- Embeds `Enda.generate` of src/conanfile.py:
`tc.variables["BUILD_SHARED_LIBS"] = self.options.shared`. -/
def Enda.generate (opts : ConanOptions) : CMakeToolchainVars :=
  { tcVars :=
      match opts.shared with
      | some b => [("BUILD_SHARED_LIBS", b)]
      | none => [] }

/-! Part 2: the NdArray core, modelled from the specification. -/

/-- Modelled from the spec: the error kinds of section 7 of the
specification; none of this error handling exists in the repository's
source. -/
inductive NdError
  | DimensionMismatch
  | IndexOutOfRange
  | InvalidSlice
  | ShapeMismatch
  | NotReshapeable
  | OwnershipViolation
  | AllocationFailure
deriving DecidableEq

/-- Modelled from the spec: a Shape is an ordered sequence of non-negative
extents; its rank is the sequence length. -/
abbrev Shape := List Nat

/-- Modelled from the spec: row-major strides; the stride of axis `i` is
the product of the extents of axes `i+1 .. rank-1`. -/
def rmStrides : Shape → List Int
  | [] => []
  | _ :: t => (t.prod : Int) :: rmStrides t

/-- Modelled from the spec: column-major strides; the stride of axis `i`
is the product of the extents of axes `0 .. i-1`. -/
def cmStrides : Shape → List Int
  | [] => []
  | e :: t => 1 :: (cmStrides t).map (fun s => s * (e : Int))

/-- Extents of a shape read along a permutation of its axes. -/
def permutedExt : Shape → List Nat → List Nat := fun shape p =>
  p.map (fun a => shape.getD a 1)

/-- Modelled from the spec: strides for an arbitrary axis-ordering
permutation `p` (outermost axis first): the product rule of row-major
layout is applied along `p`, and the stride computed at position `k` of
`p` is assigned to axis `p[k]`. -/
def permStrides (shape : Shape) (p : List Nat) : List Int :=
  (List.range shape.length).map
    (fun ax => (rmStrides (permutedExt shape p)).getD (p.indexOf ax) 0)

/-- Modelled from the spec: the layout orders row-major, column-major and
arbitrary permutation. -/
inductive LayoutOrder
  | rowMajor
  | colMajor
  | perm (p : List Nat)

/-- Modelled from the spec: `strides_for(shape, order)` computes the
canonical strides of a shape under a layout order. -/
def strides_for (shape : Shape) : LayoutOrder → List Int
  | LayoutOrder.rowMajor => rmStrides shape
  | LayoutOrder.colMajor => cmStrides shape
  | LayoutOrder.perm p => permStrides shape p

/-- A layout order is valid for a shape when its permutation (if any) is a
permutation of the axis indices `0 .. rank-1`. -/
def validLayoutOrder (shape : Shape) : LayoutOrder → Prop
  | LayoutOrder.perm p => p.Perm (List.range shape.length)
  | _ => True

/-- Modelled from the spec: `is_contiguous(shape, strides, order)` is true
iff the strides exactly equal `strides_for(shape, order)`. -/
def is_contiguous (shape : Shape) (strides : List Int) (order : LayoutOrder) : Bool :=
  strides == strides_for shape order

/-- Dot product of a multi-index with strides, in element units. -/
def rawDot (ix : List Int) (strides : List Int) : Int :=
  ((ix.zip strides).map (fun q => q.1 * q.2)).sum

/-- Bounds check of a multi-index against a shape: each component must be
non-negative and below the corresponding extent. -/
def validBounds (shape : Shape) (ix : List Int) : Bool :=
  (ix.zip shape).all (fun q => decide (0 ≤ q.1 ∧ q.1 < (q.2 : Int)))

/-- Full validity of a multi-index for a shape: correct length and in
bounds on every axis. -/
def validIx (shape : Shape) (ix : List Int) : Bool :=
  (ix.length == shape.length) && validBounds shape ix

/-- Modelled from the spec: `offset_of(shape, strides, base, multi_index)`
computes the linear offset of a multi-index, failing with
`IndexOutOfRange` when a component is negative or at least the
corresponding extent. -/
def offset_of (shape : Shape) (strides : List Int) (base : Int) (ix : List Int) :
    Except NdError Int :=
  if ix.length = shape.length then
    if validBounds shape ix then Except.ok (base + rawDot ix strides)
    else Except.error NdError.IndexOutOfRange
  else Except.error NdError.DimensionMismatch

/-- Modelled from the spec: left-pad a shape with extent-1 axes up to
rank `r`. -/
def padLeft (s : Shape) (r : Nat) : Shape :=
  List.replicate (r - s.length) 1 ++ s

/-- Maximum rank among a list of shapes. -/
def maxRank (ss : List Shape) : Nat :=
  (ss.map List.length).foldr Nat.max 0

/-- Extent of a shape at axis `i` after left-padding it to rank `r`. -/
def extAt (s : Shape) (r i : Nat) : Nat :=
  (padLeft s r).getD i 1

/-- Extents of all input shapes at axis `i`, after left-padding each to
rank `r`. -/
def axisList (ss : List Shape) (r i : Nat) : List Nat :=
  ss.map (fun s => extAt s r i)

/-- Maximum extent among the padded inputs at axis `i`. -/
def axMax (ss : List Shape) (r i : Nat) : Nat :=
  (axisList ss r i).foldr Nat.max 0

/-- Output shape of a successful broadcast: at every axis the maximum
padded extent of the inputs. -/
def maxShape (ss : List Shape) : Shape :=
  (List.range (maxRank ss)).map (fun i => axMax ss (maxRank ss) i)

/-- Compatibility of the inputs at one axis: every padded extent equals
the maximum there or equals 1. -/
def axisOk (ss : List Shape) (r i : Nat) : Bool :=
  (axisList ss r i).all (fun x => x == axMax ss r i || x == 1)

/-- Compatibility of a list of shapes for broadcasting: every axis is
compatible. -/
def bcastCompat (ss : List Shape) : Bool :=
  (List.range (maxRank ss)).all (fun i => axisOk ss (maxRank ss) i)

/-- Modelled from the spec: broadcast resolution at one axis; the output
extent is the maximum of the given extents provided each of them equals
that maximum or equals 1, and otherwise it is a `ShapeMismatch` failure. -/
def bcastAxis (xs : List Nat) : Except NdError Nat :=
  let m := xs.foldr Nat.max 0
  if xs.all (fun x => x == m || x == 1) then Except.ok m
  else Except.error NdError.ShapeMismatch

/-- Sequences axis-wise broadcast results, stopping at the first failure. -/
def collectAxes (f : Nat → Except NdError Nat) : List Nat → Except NdError (List Nat)
  | [] => Except.ok []
  | i :: is => do
      let v ← f i
      let vs ← collectAxes f is
      pure (v :: vs)

/-- Modelled from the spec: broadcasting of a list of shapes; each input
is left-padded with extent-1 axes to the maximum rank and the axis-wise
max-extent rule is applied, failing with `ShapeMismatch` on the first
incompatible axis. -/
def broadcastShapes (ss : List Shape) : Except NdError Shape :=
  collectAxes (fun i => bcastAxis (axisList ss (maxRank ss) i))
    (List.range (maxRank ss))

/-- Modelled from the spec: a per-axis slice specification component:
single index, half-open range with step, full axis, new axis, or
ellipsis. -/
inductive SliceItem
  | single (i : Int)
  | srange (start stop step : Int)
  | full
  | newAxis
  | ellipsis
deriving DecidableEq

/-- Number of elements of the half-open range `start .. stop` with the
given step. -/
def rangeLen (start stop step : Int) : Nat :=
  if 0 < step then (((stop - start) + step - 1) / step).toNat
  else if step < 0 then (((start - stop) + (.neg step) - 1) / (.neg step)).toNat
  else 0

/-- Validity of a range component against an extent `e`: either the range
is empty, or its first and last resolved source indices lie in
`[0, e)`. -/
def rangeValid (e : Nat) (start stop step : Int) : Bool :=
  rangeLen start stop step == 0 ||
    (decide (0 ≤ start * step.sign) && decide (start * step.sign < (e : Int)) &&
     decide (0 ≤ start * step.sign + ((rangeLen start stop step : Int) - 1) * step) &&
     decide (start * step.sign + ((rangeLen start stop step : Int) - 1) * step < (e : Int)))

/-- Modelled from the spec: applies an ellipsis-free slice specification to
a (shape, strides) pair, producing the view's shape, strides and the
offset advance.  A single index removes its axis and advances the offset
by `index * stride`; a range narrows the extent to the range length,
advances the offset by `start * stride * sign(step)` and multiplies the
axis stride by `step`; a new axis inserts extent 1 with stride 0. -/
def applyItems : List SliceItem → List Nat → List Int → Except NdError (List Nat × List Int × Int)
  | [], es, ss => Except.ok (es, ss, 0)
  | SliceItem.newAxis :: rest, es, ss =>
      match applyItems rest es ss with
      | Except.ok (es2, ss2, d) => Except.ok (1 :: es2, 0 :: ss2, d)
      | Except.error err => Except.error err
  | SliceItem.ellipsis :: _, _, _ => Except.error NdError.InvalidSlice
  | SliceItem.single i :: rest, e :: es, s :: ss =>
      if 0 ≤ i ∧ i < (e : Int) then
        match applyItems rest es ss with
        | Except.ok (es2, ss2, d) => Except.ok (es2, ss2, i * s + d)
        | Except.error err => Except.error err
      else Except.error NdError.IndexOutOfRange
  | SliceItem.srange start stop step :: rest, e :: es, s :: ss =>
      if step = 0 then Except.error NdError.InvalidSlice
      else if rangeValid e start stop step then
        match applyItems rest es ss with
        | Except.ok (es2, ss2, d) =>
            Except.ok (rangeLen start stop step :: es2, s * step :: ss2,
              start * step.sign * s + d)
        | Except.error err => Except.error err
      else Except.error NdError.IndexOutOfRange
  | SliceItem.full :: rest, e :: es, s :: ss =>
      match applyItems rest es ss with
      | Except.ok (es2, ss2, d) => Except.ok (e :: es2, s :: ss2, d)
      | Except.error err => Except.error err
  | SliceItem.single _ :: _, [], _ => Except.error NdError.InvalidSlice
  | SliceItem.srange _ _ _ :: _, [], _ => Except.error NdError.InvalidSlice
  | SliceItem.full :: _, [], _ => Except.error NdError.InvalidSlice
  | SliceItem.single _ :: _, _ :: _, [] => Except.error NdError.InvalidSlice
  | SliceItem.srange _ _ _ :: _, _ :: _, [] => Except.error NdError.InvalidSlice
  | SliceItem.full :: _, _ :: _, [] => Except.error NdError.InvalidSlice

/-- Composes a multi-index of the sliced view with an ellipsis-free slice
specification, yielding the corresponding multi-index of the source. -/
def compItems : List SliceItem → List Int → List Int
  | [], js => js
  | SliceItem.single i :: rest, js => i :: compItems rest js
  | SliceItem.srange start _ step :: rest, j :: js =>
      (start * step.sign + j * step) :: compItems rest js
  | SliceItem.full :: rest, j :: js => j :: compItems rest js
  | SliceItem.newAxis :: rest, _ :: js => compItems rest js
  | SliceItem.ellipsis :: rest, js => compItems rest js
  | SliceItem.srange _ _ _ :: _, [] => []
  | SliceItem.full :: _, [] => []
  | SliceItem.newAxis :: _, [] => []

/-- Tells whether a slice component consumes one source axis. -/
def consumesAxis : SliceItem → Bool
  | SliceItem.single _ => true
  | SliceItem.srange _ _ _ => true
  | SliceItem.full => true
  | SliceItem.newAxis => false
  | SliceItem.ellipsis => false

/-- Tells whether a slice component is the ellipsis. -/
def isEllipsis : SliceItem → Bool
  | SliceItem.ellipsis => true
  | _ => false

/-- Modelled from the spec: ellipsis expansion at specification-parse
time; an ellipsis expands to a full-axis component for every axis not
otherwise consumed, may appear at most once, and the specification may
not have more axis-consuming components than the source rank (both
failures are `InvalidSlice`). -/
def expandEllipsis (spec : List SliceItem) (rank : Nat) : Except NdError (List SliceItem) :=
  if 2 ≤ (spec.filter isEllipsis).length then Except.error NdError.InvalidSlice
  else if rank < (spec.filter consumesAxis).length then Except.error NdError.InvalidSlice
  else Except.ok
    ((spec.map (fun it =>
        if isEllipsis it then
          List.replicate (rank - (spec.filter consumesAxis).length) SliceItem.full
        else [it])).flatten)

/-- Geometry of an array or view: shape, strides and base offset. -/
structure Geom where
  shape : List Nat
  strides : List Int
  offset : Int
deriving DecidableEq

/-- Modelled from the spec: slicing at the geometry level; expands the
ellipsis, applies the components and advances the base offset.  Axes not
covered by the specification pass through unchanged. -/
def sliceGeom (g : Geom) (spec : List SliceItem) : Except NdError Geom :=
  match expandEllipsis spec g.shape.length with
  | Except.error e => Except.error e
  | Except.ok items =>
      match applyItems items g.shape g.strides with
      | Except.ok (es2, ss2, d) => Except.ok ⟨es2, ss2, g.offset + d⟩
      | Except.error e => Except.error e

/-- Composed source multi-index of a view multi-index under a slice
specification, after ellipsis expansion against the source rank. -/
def composedIx (g : Geom) (spec : List SliceItem) (j : List Int) : List Int :=
  match expandEllipsis spec g.shape.length with
  | Except.ok items => compItems items j
  | Except.error _ => []

/-- Modelled from the spec: an array (or view) is storage together with a
geometry; a view shares the storage of its source. -/
structure NdArr (α : Type) where
  storage : List α
  geom : Geom

/-- Modelled from the spec: reading one element through a geometry; the
linear offset is computed by `offset_of` and dereferenced in storage. -/
def readElem {α : Type} (a : NdArr α) (ix : List Int) : Except NdError α :=
  match offset_of a.geom.shape a.geom.strides a.geom.offset ix with
  | Except.error e => Except.error e
  | Except.ok off =>
      if h : 0 ≤ off ∧ off.toNat < a.storage.length then
        Except.ok (a.storage.get ⟨off.toNat, h.2⟩)
      else Except.error NdError.IndexOutOfRange

/-- Modelled from the spec: slicing an array produces a view over the same
storage with the sliced geometry; no element data is copied. -/
def sliceView {α : Type} (a : NdArr α) (spec : List SliceItem) : Except NdError (NdArr α) :=
  match sliceGeom a.geom spec with
  | Except.ok g => Except.ok ⟨a.storage, g⟩
  | Except.error e => Except.error e

/-- Concrete 5x5 row-major array over storage `0..24`, for the slicing
scenario. -/
def exArr : NdArr Int :=
  ⟨(List.range 25).map Int.ofNat, ⟨[5, 5], [5, 1], 0⟩⟩

/-- Concrete slice specification `[range(1,4,1), single(2)]`. -/
def exSpec : List SliceItem :=
  [SliceItem.srange 1 4 1, SliceItem.single 2]

/-- The view produced by slicing `exArr` with `exSpec`. -/
def exView : NdArr Int :=
  ⟨(List.range 25).map Int.ofNat, ⟨[3], [5], 7⟩⟩

/-! Theorems. -/

/-- C1: the repository's source is only a package/build recipe for the C++
library "Efficient NdArray" (Enda): every type and function defined in the
source (the recipe class and its seven lifecycle methods) concerns
compiling, testing, or installing, and none of them defines an array type,
an indexing routine or a memory-layout routine. -/
theorem source_is_build_recipe_only :
    endaSourceDecls.length = 8 ∧
    endaSourceDecls.all (fun d => buildConcern d.concern) = true ∧
    endaSourceDecls.filter (fun d => arrayLogicConcern d.concern) = [] := by
  decide

/-- C8: `Enda.validate` raises `ConanInvalidConfiguration` for every
configuration whose compiler is gcc with version below 9, rejects (via
`check_min_cppstd`) every configuration whose C++ standard is below 20,
and returns without raising on all other configurations. -/
theorem validate_rejects_exactly_bad_configs (s : ConanSettings) :
    (s.compiler = "gcc" ∧ s.compilerVersion < 9 →
      ∃ m, Enda.validate s = Except.error (ConanError.InvalidConfiguration m)) ∧
    (s.cppstd < 20 →
      Enda.validate s =
        Except.error (ConanError.InvalidConfiguration
          "current cppstd is below the required minimum")) ∧
    (20 ≤ s.cppstd → ¬(s.compiler = "gcc" ∧ s.compilerVersion < 9) →
      Enda.validate s = Except.ok ()) := by
  refine ⟨?_, ?_, ?_⟩
  · intro h
    by_cases hc : s.cppstd < 20
    · exact ⟨"current cppstd is below the required minimum",
        by simp [Enda.validate, check_min_cppstd, hc, Bind.bind, Except.bind]⟩
    · exact ⟨"GCC < 9 is not supported.",
        by simp [Enda.validate, check_min_cppstd, hc, h.1, h.2, Bind.bind, Except.bind]⟩
  · intro hc
    simp [Enda.validate, check_min_cppstd, hc, Bind.bind, Except.bind]
  · intro hc hg
    have hc' : ¬ s.cppstd < 20 := by omega
    simp [Enda.validate, check_min_cppstd, hc', hg, Bind.bind, Except.bind]

/-- Witness for C8 at three concrete configurations: gcc 8 is rejected,
cppstd 17 is rejected, and gcc 13 with cppstd 20 validates. -/
theorem validate_rejects_exactly_bad_configs_witness :
    (∃ m, Enda.validate ⟨"Linux", "gcc", 8, 20, "Release", "x86_64"⟩ =
      Except.error (ConanError.InvalidConfiguration m)) ∧
    Enda.validate ⟨"Linux", "clang", 17, 17, "Release", "x86_64"⟩ =
      Except.error (ConanError.InvalidConfiguration
        "current cppstd is below the required minimum") ∧
    Enda.validate ⟨"Linux", "gcc", 13, 20, "Release", "x86_64"⟩ = Except.ok () :=
  ⟨(validate_rejects_exactly_bad_configs _).1 ⟨rfl, by decide⟩,
   (validate_rejects_exactly_bad_configs _).2.1 (by decide),
   (validate_rejects_exactly_bad_configs _).2.2 (by decide) (by decide)⟩

/-- C9: `Enda.config_options` deletes the `fPIC` option exactly when the
target os is Windows, and leaves the `shared` option and all settings
unchanged for every configuration. -/
theorem config_options_deletes_fPIC_iff_windows (st : RecipeState) (b : Bool)
    (h : st.options.fPIC = some b) :
    ((Enda.config_options st).options.fPIC = none ↔ st.settings.os = "Windows") ∧
    (Enda.config_options st).options.shared = st.options.shared ∧
    (Enda.config_options st).settings = st.settings := by
  unfold Enda.config_options
  by_cases hw : st.settings.os = "Windows" <;> simp [hw, h]

/-- Witness for C9 at concrete Windows and Linux states with the default
options. -/
theorem config_options_deletes_fPIC_iff_windows_witness :
    (((Enda.config_options ⟨⟨"Windows", "msvc", 19, 20, "Release", "x86_64"⟩,
        default_options⟩).options.fPIC = none ↔
      (⟨⟨"Windows", "msvc", 19, 20, "Release", "x86_64"⟩,
        default_options⟩ : RecipeState).settings.os = "Windows") ∧
     (Enda.config_options ⟨⟨"Windows", "msvc", 19, 20, "Release", "x86_64"⟩,
        default_options⟩).options.shared = default_options.shared ∧
     (Enda.config_options ⟨⟨"Windows", "msvc", 19, 20, "Release", "x86_64"⟩,
        default_options⟩).settings =
       (⟨⟨"Windows", "msvc", 19, 20, "Release", "x86_64"⟩,
        default_options⟩ : RecipeState).settings) ∧
    ((Enda.config_options ⟨⟨"Linux", "gcc", 13, 20, "Release", "x86_64"⟩,
        default_options⟩).options.fPIC = none ↔
      (⟨⟨"Linux", "gcc", 13, 20, "Release", "x86_64"⟩,
        default_options⟩ : RecipeState).settings.os = "Windows") :=
  ⟨config_options_deletes_fPIC_iff_windows _ true rfl,
   (config_options_deletes_fPIC_iff_windows
     ⟨⟨"Linux", "gcc", 13, 20, "Release", "x86_64"⟩, default_options⟩ true rfl).1⟩

/-- C10: `Enda.generate` sets the CMake toolchain variable
`BUILD_SHARED_LIBS` to exactly the value of the `shared` option, whose
default is `True`. -/
theorem generate_sets_build_shared_libs (opts : ConanOptions) (b : Bool)
    (h : opts.shared = some b) :
    (Enda.generate opts).tcVars.lookup "BUILD_SHARED_LIBS" = some b ∧
    default_options.shared = some true := by
  simp [Enda.generate, h, List.lookup, default_options]

/-- Witness for C10 at the default options. -/
theorem generate_sets_build_shared_libs_witness :
    (Enda.generate default_options).tcVars.lookup "BUILD_SHARED_LIBS" = some true ∧
    default_options.shared = some true :=
  generate_sets_build_shared_libs default_options true rfl

/-- C3: for every Shape `S` and valid layout order `L`,
`is_contiguous S (strides_for S L) L` is true. -/
theorem is_contiguous_of_strides_for (S : Shape) (L : LayoutOrder)
    (h : validLayoutOrder S L) :
    is_contiguous S (strides_for S L) L = true := by
  unfold is_contiguous
  exact beq_self_eq_true _

/-- Witness for C3 at the shape `[2,3]` with row-major order. -/
theorem is_contiguous_of_strides_for_witness :
    validLayoutOrder [2,3] LayoutOrder.rowMajor ∧
    is_contiguous [2,3] (strides_for [2,3] LayoutOrder.rowMajor)
      LayoutOrder.rowMajor = true :=
  ⟨True.intro, is_contiguous_of_strides_for [2,3] LayoutOrder.rowMajor True.intro⟩

/-- C5: for Shape `[2,3]` under row-major order, `strides_for` returns
`[3,1]` and `offset_of` at multi-index `[1,2]` with base offset 0 returns
linear offset 5. -/
theorem rowmajor_concrete_scenario :
    strides_for [2,3] LayoutOrder.rowMajor = [3,1] ∧
    offset_of [2,3] [3,1] 0 [1,2] = Except.ok 5 :=
  ⟨rfl, rfl⟩

/-- Helper: lengths of row-major strides. -/
lemma rmStrides_length (l : Shape) : (rmStrides l).length = l.length := by
  induction l with
  | nil => rfl
  | cons x t ih => simp [rmStrides, ih]

/-- Helper: the row-major stride at axis `i` is the product of the extents
of the later axes. -/
lemma rmStrides_getD (l : Shape) : ∀ i, i < l.length →
    (rmStrides l).getD i 0 = ((l.drop (i+1)).prod : Int) := by
  induction l with
  | nil => intro i h; simp at h
  | cons x t ih =>
    intro i h
    cases i with
    | zero => simp [rmStrides]
    | succ n =>
      simp only [rmStrides, List.getD_cons_succ, List.drop_succ_cons]
      exact ih n (by simpa using h)

/-- Helper: lengths of column-major strides. -/
lemma cmStrides_length (l : Shape) : (cmStrides l).length = l.length := by
  induction l with
  | nil => rfl
  | cons x t ih => simp [cmStrides, ih]

/-- Helper: `getD` through a scaling map. -/
lemma getD_map_mul (l : List Int) (c : Int) : ∀ i, i < l.length →
    (l.map (fun s => s * c)).getD i 0 = (l.getD i 0) * c := by
  induction l with
  | nil => intro i h; simp at h
  | cons x t ih =>
    intro i h
    cases i with
    | zero => simp
    | succ n =>
      simp only [List.map_cons, List.getD_cons_succ]
      exact ih n (by simpa using h)

/-- Helper: the column-major stride at axis `i` is the product of the
extents of the earlier axes. -/
lemma cmStrides_getD (l : Shape) : ∀ i, i < l.length →
    (cmStrides l).getD i 0 = ((l.take i).prod : Int) := by
  induction l with
  | nil => intro i h; simp at h
  | cons e t ih =>
    intro i h
    cases i with
    | zero => simp [cmStrides]
    | succ n =>
      have hn : n < t.length := by simpa using h
      simp only [cmStrides, List.getD_cons_succ]
      rw [getD_map_mul _ _ n (by rw [cmStrides_length]; exact hn)]
      rw [ih n hn]
      simp [List.take_succ_cons, Nat.cast_mul, mul_comm]

/-- Helper: the permutation stride assigned to axis `ax` is the product of
the extents of the axes listed after `ax` in the permutation. -/
lemma permStrides_getD (shape : Shape) (p : List Nat)
    (hp : p.Perm (List.range shape.length)) (ax : Nat) (hax : ax < shape.length) :
    (permStrides shape p).getD ax 0 =
      (((p.drop (p.indexOf ax + 1)).map (fun a => shape.getD a 1)).prod : Int) := by
  have hmem : ax ∈ p := hp.mem_iff.mpr (List.mem_range.mpr hax)
  have hidx : p.indexOf ax < p.length := List.indexOf_lt_length.mpr hmem
  have h1 : (permStrides shape p).getD ax 0
      = (rmStrides (permutedExt shape p)).getD (p.indexOf ax) 0 := by
    unfold permStrides
    rw [List.getD_eq_getElem _ _ (by simpa using hax)]
    simp
  rw [h1]
  have hlen2 : p.indexOf ax < (permutedExt shape p).length := by
    simpa [permutedExt] using hidx
  rw [rmStrides_getD _ _ hlen2]
  unfold permutedExt
  rw [← List.map_drop]

/-- C2: for every Shape and axis, `strides_for` assigns the row-major
stride as the product of the later extents, the column-major stride as
the product of the earlier extents, and for an arbitrary permutation the
same product rule along that permutation. -/
theorem strides_for_product_rule (shape : Shape) (i : Nat) (h : i < shape.length)
    (p : List Nat) (hp : p.Perm (List.range shape.length)) :
    (strides_for shape LayoutOrder.rowMajor).getD i 0 = ((shape.drop (i+1)).prod : Int) ∧
    (strides_for shape LayoutOrder.colMajor).getD i 0 = ((shape.take i).prod : Int) ∧
    (strides_for shape (LayoutOrder.perm p)).getD i 0 =
      (((p.drop (p.indexOf i + 1)).map (fun a => shape.getD a 1)).prod : Int) :=
  ⟨rmStrides_getD shape i h, cmStrides_getD shape i h, permStrides_getD shape p hp i h⟩

/-- Witness for C2 at shape `[2,3,4]`, axis 1, permutation `[2,0,1]`. -/
theorem strides_for_product_rule_witness :
    (1 < ([2,3,4] : Shape).length ∧
      ([2,0,1] : List Nat).Perm (List.range ([2,3,4] : Shape).length)) ∧
    ((strides_for [2,3,4] LayoutOrder.rowMajor).getD 1 0
        = ((([2,3,4] : Shape).drop 2).prod : Int) ∧
     (strides_for [2,3,4] LayoutOrder.colMajor).getD 1 0
        = ((([2,3,4] : Shape).take 1).prod : Int) ∧
     (strides_for [2,3,4] (LayoutOrder.perm [2,0,1])).getD 1 0
        = (((([2,0,1] : List Nat).drop (([2,0,1] : List Nat).indexOf 1 + 1)).map
            (fun a => ([2,3,4] : Shape).getD a 1)).prod : Int)) :=
  ⟨⟨by decide, by decide⟩,
   strides_for_product_rule [2,3,4] 1 (by decide) [2,0,1] (by decide)⟩

/-- Helper: `collectAxes` succeeds when every axis computation succeeds,
collecting the per-axis values. -/
lemma collectAxes_ok_of (f : Nat → Except NdError Nat) (g : Nat → Nat) :
    ∀ l : List Nat, (∀ i, i ∈ l → f i = Except.ok (g i)) →
      collectAxes f l = Except.ok (l.map g) := by
  intro l
  induction l with
  | nil => intro _; rfl
  | cons i is ih =>
    intro h
    have hi := h i (List.mem_cons_self i is)
    have hr := ih (fun j hj => h j (List.mem_cons_of_mem _ hj))
    simp [collectAxes, hi, hr, Bind.bind, Except.bind, Pure.pure, Except.pure]

/-- Helper: values collected by a successful `collectAxes` run are the
per-axis values. -/
lemma collectAxes_ok_imp (f : Nat → Except NdError Nat) (g : Nat → Nat)
    (hg : ∀ i v, f i = Except.ok v → v = g i) :
    ∀ (l : List Nat) (vs : List Nat), collectAxes f l = Except.ok vs → vs = l.map g := by
  intro l
  induction l with
  | nil =>
    intro vs h
    simp [collectAxes] at h
    simp [h]
  | cons i is ih =>
    intro vs h
    cases hf : f i with
    | error e => simp [collectAxes, hf, Bind.bind, Except.bind] at h
    | ok v =>
      cases hr : collectAxes f is with
      | error e => simp [collectAxes, hf, hr, Bind.bind, Except.bind] at h
      | ok vs' =>
        simp [collectAxes, hf, hr, Bind.bind, Except.bind, Pure.pure, Except.pure] at h
        rw [← h, List.map_cons, ← ih vs' hr, hg i v hf]

/-- Helper: `collectAxes` fails with `ShapeMismatch` when some listed axis
fails that way while every axis is either a success or that failure. -/
lemma collectAxes_error (f : Nat → Except NdError Nat)
    (hall : ∀ i, (∃ v, f i = Except.ok v) ∨ f i = Except.error NdError.ShapeMismatch) :
    ∀ l : List Nat, (∃ i, i ∈ l ∧ f i = Except.error NdError.ShapeMismatch) →
      collectAxes f l = Except.error NdError.ShapeMismatch := by
  intro l
  induction l with
  | nil =>
    rintro ⟨i, hi, _⟩
    simp at hi
  | cons i is ih =>
    rintro ⟨k, hk, hfk⟩
    rcases hall i with ⟨v, hv⟩ | hi
    · rcases List.mem_cons.mp hk with rfl | hmem
      · rw [hv] at hfk; cases hfk
      · have hrec := ih ⟨k, hmem, hfk⟩
        simp [collectAxes, hv, hrec, Bind.bind, Except.bind]
    · simp [collectAxes, hi, Bind.bind, Except.bind]

/-- Helper: `bcastAxis` succeeds with the axis maximum when every extent
equals the maximum or 1. -/
lemma bcastAxis_ok_max (xs : List Nat)
    (hok : xs.all (fun x => x == xs.foldr Nat.max 0 || x == 1) = true) :
    bcastAxis xs = Except.ok (xs.foldr Nat.max 0) := by
  simp [bcastAxis, hok]

/-- Helper: `bcastAxis` fails with `ShapeMismatch` when some extent is
neither the maximum nor 1. -/
lemma bcastAxis_err (xs : List Nat)
    (hbad : xs.all (fun x => x == xs.foldr Nat.max 0 || x == 1) = false) :
    bcastAxis xs = Except.error NdError.ShapeMismatch := by
  simp [bcastAxis, hbad]

/-- Helper: a successful `bcastAxis` returns the fold maximum. -/
lemma bcastAxis_ok_val (xs : List Nat) (v : Nat)
    (h : bcastAxis xs = Except.ok v) : v = xs.foldr Nat.max 0 := by
  by_cases hc : xs.all (fun x => x == xs.foldr Nat.max 0 || x == 1) = true
  · rw [bcastAxis_ok_max xs hc] at h
    exact (Except.ok.inj h).symm
  · rw [bcastAxis_err xs (Bool.eq_false_iff.mpr hc)] at h
    cases h

/-- Helper: `bcastAxis` either succeeds or fails with `ShapeMismatch`. -/
lemma bcastAxis_cases (xs : List Nat) :
    (∃ v, bcastAxis xs = Except.ok v) ∨ bcastAxis xs = Except.error NdError.ShapeMismatch := by
  by_cases hc : xs.all (fun x => x == xs.foldr Nat.max 0 || x == 1) = true
  · exact Or.inl ⟨_, bcastAxis_ok_max xs hc⟩
  · exact Or.inr (bcastAxis_err xs (Bool.eq_false_iff.mpr hc))

/-- Helper: compatible shapes broadcast to the axis-wise maximum shape. -/
lemma broadcast_ok_of_compat (ss : List Shape) (h : bcastCompat ss = true) :
    broadcastShapes ss = Except.ok (maxShape ss) := by
  unfold broadcastShapes maxShape
  apply collectAxes_ok_of
  intro i hi
  have hax : axisOk ss (maxRank ss) i = true := by
    have := List.all_eq_true.mp h i hi
    simpa using this
  exact bcastAxis_ok_max _ (by simpa [axisOk, axMax] using hax)

/-- Helper: incompatible shapes fail to broadcast with `ShapeMismatch`. -/
lemma broadcast_err_of_incompat (ss : List Shape) (h : bcastCompat ss = false) :
    broadcastShapes ss = Except.error NdError.ShapeMismatch := by
  unfold broadcastShapes
  apply collectAxes_error
  · intro i
    exact bcastAxis_cases _
  · obtain ⟨i, hi, hbad⟩ := List.all_eq_false.mp h
    refine ⟨i, hi, ?_⟩
    exact bcastAxis_err _ (by simpa [axisOk, axMax] using hbad)

/-- Helper: a successful broadcast returns the axis-wise maximum shape. -/
lemma broadcast_ok_eq (ss : List Shape) (t : Shape)
    (h : broadcastShapes ss = Except.ok t) : t = maxShape ss := by
  unfold broadcastShapes at h
  exact collectAxes_ok_imp _ _ (fun i v hv => bcastAxis_ok_val _ _ hv) _ _ h

/-- C4: broadcasting left-pads every input with extent-1 axes to the
maximum rank and returns the shape whose extent at each axis is the
maximum over inputs, provided every input's extent there equals that
maximum or 1; otherwise it fails with `ShapeMismatch`. -/
theorem broadcast_max_rule (ss : List Shape) :
    (bcastCompat ss = true → broadcastShapes ss = Except.ok (maxShape ss)) ∧
    (bcastCompat ss = false → broadcastShapes ss = Except.error NdError.ShapeMismatch) :=
  ⟨broadcast_ok_of_compat ss, broadcast_err_of_incompat ss⟩

/-- Witness for C4: `[3,1]` and `[1,4]` broadcast to `[3,4]`; `[2]` and
`[3]` fail with `ShapeMismatch`. -/
theorem broadcast_max_rule_witness :
    (broadcastShapes [[3,1],[1,4]] = Except.ok (maxShape [[3,1],[1,4]]) ∧
      maxShape [[3,1],[1,4]] = [3,4]) ∧
    broadcastShapes [[2],[3]] = Except.error NdError.ShapeMismatch :=
  ⟨⟨(broadcast_max_rule [[3,1],[1,4]]).1 (by decide), by decide⟩,
   (broadcast_max_rule [[2],[3]]).2 (by decide)⟩

/-- Helper: map over a list respects pointwise-equal functions. -/
lemma map_congr_mem {α β : Type} (l : List α) (f g : α → β)
    (h : ∀ a, a ∈ l → f a = g a) : l.map f = l.map g := by
  induction l with
  | nil => rfl
  | cons x t ih =>
    simp only [List.map_cons]
    rw [h x (List.mem_cons_self x t), ih (fun a ha => h a (List.mem_cons_of_mem _ ha))]

/-- Helper: `collectAxes` respects pointwise-equal axis functions. -/
lemma collectAxes_congr (f g : Nat → Except NdError Nat) (h : ∀ i, f i = g i) :
    ∀ l, collectAxes f l = collectAxes g l := by
  intro l
  induction l with
  | nil => rfl
  | cons i is ih => simp [collectAxes, h i, ih]

/-- Helper: padding is idempotent across increasing ranks. -/
lemma padLeft_padLeft (s : Shape) (r1 r2 : Nat) (h1 : s.length ≤ r1) (h2 : r1 ≤ r2) :
    padLeft (padLeft s r1) r2 = padLeft s r2 := by
  unfold padLeft
  rw [List.length_append, List.length_replicate, ← List.append_assoc,
    ← List.replicate_add]
  congr 2
  omega

/-- Helper: the length of a left-padded shape. -/
lemma padLeft_length (s : Shape) (r : Nat) (h : s.length ≤ r) :
    (padLeft s r).length = r := by
  simp [padLeft]
  omega

/-- Helper: a padded extent inside the padding region is 1. -/
lemma extAt_of_lt (s : Shape) (r i : Nat) (h : i < r - s.length) :
    extAt s r i = 1 := by
  unfold extAt padLeft
  rw [List.getD_append _ _ _ _ (by simpa using h)]
  rw [List.getD_eq_getElem _ _ (by simpa using h)]
  simp

/-- Helper: a padded extent at high rank equals the padded extent at a
lower rank shifted by the rank difference. -/
lemma extAt_pad (s : Shape) (r1 r2 i : Nat) (h1 : s.length ≤ r1) (h2 : r1 ≤ r2)
    (hge : r2 - r1 ≤ i) :
    extAt s r2 i = extAt s r1 (i - (r2 - r1)) := by
  unfold extAt
  rw [← padLeft_padLeft s r1 r2 h1 h2]
  set X := padLeft s r1 with hX
  have hl : X.length = r1 := by rw [hX]; exact padLeft_length s r1 h1
  show (padLeft X r2).getD i 1 = X.getD (i - (r2 - r1)) 1
  unfold padLeft
  rw [List.getD_append_right _ _ _ _ (by rw [List.length_replicate, hl]; exact hge)]
  rw [List.length_replicate, hl]

/-- Helper: the length of the axis-wise maximum shape is the maximum
rank. -/
lemma maxShape_length (ss : List Shape) : (maxShape ss).length = maxRank ss := by
  simp [maxShape]

/-- Helper: the maximum shape reads the axis maximum at every axis. -/
lemma maxShape_getD (ss : List Shape) (i : Nat) (h : i < maxRank ss) :
    (maxShape ss).getD i 1 = axMax ss (maxRank ss) i := by
  unfold maxShape
  rw [List.getD_eq_getElem _ _ (by simpa using h)]
  simp

/-- Helper: the maximum rank of a two-shape list. -/
lemma maxRank_pair (A B : Shape) : maxRank [A, B] = Nat.max A.length B.length := by
  simp [maxRank]

/-- Helper: the maximum rank of a three-shape list. -/
lemma maxRank_triple (A B C : Shape) :
    maxRank [A, B, C] = Nat.max A.length (Nat.max B.length C.length) := by
  simp [maxRank]

/-- Helper: padded extent of a pair's maximum shape is the maximum of the
padded extents. -/
lemma extAt_maxShape_pair (A B : Shape) (R i : Nat)
    (hR : maxRank [A, B] ≤ R) (hi : i < R) :
    extAt (maxShape [A, B]) R i = Nat.max (extAt A R i) (extAt B R i) := by
  have hA : A.length ≤ maxRank [A, B] := by
    rw [maxRank_pair]; exact le_max_left _ _
  have hB : B.length ≤ maxRank [A, B] := by
    rw [maxRank_pair]; exact le_max_right _ _
  have hlenD : (maxShape [A, B]).length = maxRank [A, B] := maxShape_length _
  by_cases hcase : i < R - maxRank [A, B]
  · rw [extAt_of_lt _ _ _ (by rw [hlenD]; exact hcase)]
    rw [extAt_of_lt A R i (by omega), extAt_of_lt B R i (by omega)]
    decide
  · have hk : i - (R - maxRank [A, B]) < maxRank [A, B] := by omega
    rw [extAt_pad (maxShape [A, B]) (maxRank [A, B]) R i (le_of_eq hlenD) hR (by omega)]
    rw [extAt_pad A (maxRank [A, B]) R i hA hR (by omega)]
    rw [extAt_pad B (maxRank [A, B]) R i hB hR (by omega)]
    have hD : extAt (maxShape [A, B]) (maxRank [A, B]) (i - (R - maxRank [A, B]))
        = (maxShape [A, B]).getD (i - (R - maxRank [A, B])) 1 := by
      unfold extAt
      rw [show padLeft (maxShape [A, B]) (maxRank [A, B]) = maxShape [A, B] from by
        unfold padLeft
        rw [hlenD, Nat.sub_self]
        simp]
    rw [hD, maxShape_getD [A, B] _ hk]
    simp [axMax, axisList]

/-- Helper: left-nested pairwise maximum shape equals the three-shape
maximum shape. -/
lemma maxShape_assoc_left (A B C : Shape) :
    maxShape [maxShape [A, B], C] = maxShape [A, B, C] := by
  have hrank : maxRank [maxShape [A, B], C] = maxRank [A, B, C] := by
    rw [maxRank_pair, maxShape_length, maxRank_pair, maxRank_triple]
    exact max_assoc _ _ _
  have hAB : maxRank [A, B] ≤ maxRank [A, B, C] := by
    rw [maxRank_pair, maxRank_triple]
    exact max_le_max (le_refl _) (le_max_left _ _)
  apply List.ext_getElem
  · rw [maxShape_length, maxShape_length, hrank]
  · intro n h1 h2
    have hn : n < maxRank [maxShape [A, B], C] := by
      rw [← maxShape_length]; exact h1
    have hn' : n < maxRank [A, B, C] := by rw [← hrank]; exact hn
    rw [← List.getD_eq_getElem _ 1 h1, ← List.getD_eq_getElem _ 1 h2]
    rw [maxShape_getD _ _ hn, maxShape_getD _ _ hn', hrank]
    simp only [axMax, axisList, List.map_cons, List.map_nil, List.foldr_cons,
      List.foldr_nil]
    rw [extAt_maxShape_pair A B _ _ hAB hn']
    simp [max_assoc]

/-- Helper: right-nested pairwise maximum shape equals the three-shape
maximum shape. -/
lemma maxShape_assoc_right (A B C : Shape) :
    maxShape [A, maxShape [B, C]] = maxShape [A, B, C] := by
  have hrank : maxRank [A, maxShape [B, C]] = maxRank [A, B, C] := by
    rw [maxRank_pair, maxShape_length, maxRank_pair, maxRank_triple]
  have hBC : maxRank [B, C] ≤ maxRank [A, B, C] := by
    rw [maxRank_pair, maxRank_triple]
    exact le_max_right _ _
  apply List.ext_getElem
  · rw [maxShape_length, maxShape_length, hrank]
  · intro n h1 h2
    have hn : n < maxRank [A, maxShape [B, C]] := by
      rw [← maxShape_length]; exact h1
    have hn' : n < maxRank [A, B, C] := by rw [← hrank]; exact hn
    rw [← List.getD_eq_getElem _ 1 h1, ← List.getD_eq_getElem _ 1 h2]
    rw [maxShape_getD _ _ hn, maxShape_getD _ _ hn', hrank]
    simp only [axMax, axisList, List.map_cons, List.map_nil, List.foldr_cons,
      List.foldr_nil]
    rw [extAt_maxShape_pair B C _ _ hBC hn']
    simp [max_assoc]

/-- Helper: axis-wise broadcast of two extents is commutative. -/
lemma bcastAxis_pair_comm (a b : Nat) : bcastAxis [a, b] = bcastAxis [b, a] := by
  simp only [bcastAxis, List.foldr_cons, List.foldr_nil, List.all_cons,
    List.all_nil, Bool.and_true]
  have hm : Nat.max a (Nat.max b 0) = Nat.max b (Nat.max a 0) := by
    simp [max_comm a b]
  rw [hm, Bool.and_comm]

/-- Helper: broadcasting two shapes is commutative. -/
lemma broadcast_comm_pair (A B : Shape) :
    broadcastShapes [A, B] = broadcastShapes [B, A] := by
  unfold broadcastShapes
  have hr : maxRank [A, B] = maxRank [B, A] := by
    rw [maxRank_pair, maxRank_pair]
    exact max_comm _ _
  rw [hr]
  apply collectAxes_congr
  intro i
  exact bcastAxis_pair_comm (extAt A (maxRank [B, A]) i) (extAt B (maxRank [B, A]) i)

/-- C7: broadcasting of shapes is commutative and associative; whenever
the pairwise and three-way broadcasts succeed, the nested results agree
with the three-way result, and swapping a pair preserves the result. -/
theorem broadcast_comm_assoc (A B C D E F G H : Shape)
    (hAB : broadcastShapes [A, B] = Except.ok D)
    (hDC : broadcastShapes [D, C] = Except.ok E)
    (hBC : broadcastShapes [B, C] = Except.ok F)
    (hAF : broadcastShapes [A, F] = Except.ok G)
    (hABC : broadcastShapes [A, B, C] = Except.ok H) :
    broadcastShapes [B, A] = Except.ok D ∧ E = H ∧ G = H := by
  refine ⟨?_, ?_, ?_⟩
  · rw [← broadcast_comm_pair A B]
    exact hAB
  · have hD := broadcast_ok_eq _ _ hAB
    have hE := broadcast_ok_eq _ _ hDC
    have hH := broadcast_ok_eq _ _ hABC
    subst hD
    rw [hE, hH, maxShape_assoc_left]
  · have hF := broadcast_ok_eq _ _ hBC
    have hG := broadcast_ok_eq _ _ hAF
    have hH := broadcast_ok_eq _ _ hABC
    subst hF
    rw [hG, hH, maxShape_assoc_right]

/-- Witness for C7 at `A = [2,1]`, `B = [1,3]`, `C = [3]`. -/
theorem broadcast_comm_assoc_witness :
    broadcastShapes [[1,3],[2,1]] = Except.ok [2,3] ∧
    ([2,3] : Shape) = [2,3] ∧ ([2,3] : Shape) = [2,3] :=
  broadcast_comm_assoc [2,1] [1,3] [3] [2,3] [2,3] [1,3] [2,3] [2,3]
    rfl rfl rfl rfl rfl

/-- Helper: dot product through a cons cell. -/
lemma rawDot_cons (i : Int) (ix : List Int) (s : Int) (ss : List Int) :
    rawDot (i :: ix) (s :: ss) = i * s + rawDot ix ss := by
  simp [rawDot]

/-- Helper: validity of a multi-index through a cons cell. -/
lemma validIx_cons_iff (e : Nat) (es : List Nat) (j : Int) (js : List Int) :
    validIx (e :: es) (j :: js) = true ↔
      ((0 ≤ j ∧ j < (e : Int)) ∧ validIx es js = true) := by
  simp [validIx, validBounds]
  tauto

/-- Helper: a multi-index valid for a nonempty shape splits into a bounded
head and a valid tail. -/
lemma validIx_dest (e : Nat) (es : List Nat) (j : List Int)
    (h : validIx (e :: es) j = true) :
    ∃ j0 js, j = j0 :: js ∧ (0 ≤ j0 ∧ j0 < (e : Int)) ∧ validIx es js = true := by
  cases j with
  | nil => simp [validIx] at h
  | cons j0 js =>
    obtain ⟨hb, hrest⟩ := (validIx_cons_iff e es j0 js).mp h
    exact ⟨j0, js, rfl, hb, hrest⟩

/-- Helper: every index of a valid range resolves to a source index inside
the axis extent. -/
lemma range_mem_bounds (e : Nat) (start stop step j0 : Int)
    (hv : rangeValid e start stop step = true)
    (h0 : 0 ≤ j0) (hj : j0 < (rangeLen start stop step : Int)) :
    0 ≤ start * step.sign + j0 * step ∧ start * step.sign + j0 * step < (e : Int) := by
  have hlen : rangeLen start stop step ≠ 0 := by
    intro hz
    rw [hz] at hj
    norm_num at hj
    omega
  unfold rangeValid at hv
  rw [Bool.or_eq_true] at hv
  rcases hv with hzero | hbounds
  · exact absurd (by simpa using hzero) hlen
  · simp only [Bool.and_eq_true, decide_eq_true_eq] at hbounds
    obtain ⟨⟨⟨hb1, hb2⟩, hb3⟩, hb4⟩ := hbounds
    have hL1 : j0 ≤ (rangeLen start stop step : Int) - 1 := by omega
    rcases lt_trichotomy step 0 with hs | hs | hs
    · have hm1 : ((rangeLen start stop step : Int) - 1) * step ≤ j0 * step :=
        mul_le_mul_of_nonpos_right hL1 (le_of_lt hs)
      have hm2 : j0 * step ≤ 0 :=
        mul_nonpos_iff.mpr (Or.inl ⟨h0, le_of_lt hs⟩)
      constructor <;> linarith
    · subst hs
      exact absurd (by simp [rangeLen]) hlen
    · have hm1 : j0 * step ≤ ((rangeLen start stop step : Int) - 1) * step :=
        mul_le_mul_of_nonneg_right hL1 (le_of_lt hs)
      have hm2 : 0 ≤ j0 * step := mul_nonneg h0 (le_of_lt hs)
      constructor <;> linarith

/-- Helper: a successful `applyItems` run preserves geometry alignment,
maps view-valid multi-indices to source-valid composed multi-indices, and
makes the view dot product plus the offset advance equal the source dot
product of the composed index. -/
lemma applyItems_spec : ∀ (items : List SliceItem) (es : List Nat) (ss : List Int)
    (es2 : List Nat) (ss2 : List Int) (d : Int),
    ss.length = es.length →
    applyItems items es ss = Except.ok (es2, ss2, d) →
    ss2.length = es2.length ∧
    ∀ j : List Int, validIx es2 j = true →
      validIx es (compItems items j) = true ∧
      rawDot (compItems items j) ss = rawDot j ss2 + d := by
  intro items
  induction items with
  | nil =>
    intro es ss es2 ss2 d hlen h
    simp only [applyItems, Except.ok.injEq, Prod.mk.injEq] at h
    obtain ⟨h1, h2, h3⟩ := h
    subst h1
    subst h2
    subst h3
    exact ⟨hlen, fun j hj => ⟨hj, by simp [compItems]⟩⟩
  | cons it rest ih =>
    intro es ss es2 ss2 d hlen h
    cases it with
    | ellipsis => simp [applyItems] at h
    | newAxis =>
      simp only [applyItems] at h
      cases hrec : applyItems rest es ss with
      | error e2 =>
        rw [hrec] at h
        simp at h
      | ok trip =>
        obtain ⟨es2', ss2', d'⟩ := trip
        rw [hrec] at h
        simp only [Except.ok.injEq, Prod.mk.injEq] at h
        obtain ⟨h1, h2, h3⟩ := h
        subst h1
        subst h2
        subst h3
        obtain ⟨ihl, ihm⟩ := ih es ss es2' ss2' d' hlen hrec
        refine ⟨by simp [ihl], ?_⟩
        intro j hj
        obtain ⟨j0, js, rfl, hb, hjs⟩ := validIx_dest _ _ _ hj
        obtain ⟨hv, hd⟩ := ihm js hjs
        have hcomp : compItems (SliceItem.newAxis :: rest) (j0 :: js)
            = compItems rest js := rfl
        refine ⟨by rw [hcomp]; exact hv, ?_⟩
        rw [hcomp, hd, rawDot_cons]
        ring
    | single i =>
      cases es with
      | nil => simp [applyItems] at h
      | cons e es' =>
        cases ss with
        | nil => simp [applyItems] at h
        | cons s ss' =>
          simp only [applyItems] at h
          by_cases hc : 0 ≤ i ∧ i < (e : Int)
          · rw [if_pos hc] at h
            cases hrec : applyItems rest es' ss' with
            | error e2 =>
              rw [hrec] at h
              simp at h
            | ok trip =>
              obtain ⟨es2', ss2', d'⟩ := trip
              rw [hrec] at h
              simp only [Except.ok.injEq, Prod.mk.injEq] at h
              obtain ⟨h1, h2, h3⟩ := h
              subst h1
              subst h2
              subst h3
              have hlen' : ss'.length = es'.length := by simpa using hlen
              obtain ⟨ihl, ihm⟩ := ih es' ss' _ _ _ hlen' hrec
              refine ⟨ihl, ?_⟩
              intro j hj
              obtain ⟨hv, hd⟩ := ihm j hj
              have hcomp : compItems (SliceItem.single i :: rest) j
                  = i :: compItems rest j := rfl
              refine ⟨?_, ?_⟩
              · rw [hcomp]
                exact (validIx_cons_iff _ _ _ _).mpr ⟨hc, hv⟩
              · rw [hcomp, rawDot_cons, hd]
                ring
          · rw [if_neg hc] at h
            simp at h
    | full =>
      cases es with
      | nil => simp [applyItems] at h
      | cons e es' =>
        cases ss with
        | nil => simp [applyItems] at h
        | cons s ss' =>
          simp only [applyItems] at h
          cases hrec : applyItems rest es' ss' with
          | error e2 =>
            rw [hrec] at h
            simp at h
          | ok trip =>
            obtain ⟨es2', ss2', d'⟩ := trip
            rw [hrec] at h
            simp only [Except.ok.injEq, Prod.mk.injEq] at h
            obtain ⟨h1, h2, h3⟩ := h
            subst h1
            subst h2
            subst h3
            have hlen' : ss'.length = es'.length := by simpa using hlen
            obtain ⟨ihl, ihm⟩ := ih es' ss' _ _ _ hlen' hrec
            refine ⟨by simp [ihl], ?_⟩
            intro j hj
            obtain ⟨j0, js, rfl, hb, hjs⟩ := validIx_dest _ _ _ hj
            obtain ⟨hv, hd⟩ := ihm js hjs
            have hcomp : compItems (SliceItem.full :: rest) (j0 :: js)
                = j0 :: compItems rest js := rfl
            refine ⟨?_, ?_⟩
            · rw [hcomp]
              exact (validIx_cons_iff _ _ _ _).mpr ⟨hb, hv⟩
            · rw [hcomp, rawDot_cons, rawDot_cons, hd]
              ring
    | srange start stop step =>
      cases es with
      | nil => simp [applyItems] at h
      | cons e es' =>
        cases ss with
        | nil => simp [applyItems] at h
        | cons s ss' =>
          simp only [applyItems] at h
          by_cases hz : step = 0
          · rw [if_pos hz] at h
            simp at h
          · rw [if_neg hz] at h
            by_cases hvr : rangeValid e start stop step = true
            · rw [if_pos hvr] at h
              cases hrec : applyItems rest es' ss' with
              | error e2 =>
                rw [hrec] at h
                simp at h
              | ok trip =>
                obtain ⟨es2', ss2', d'⟩ := trip
                rw [hrec] at h
                simp only [Except.ok.injEq, Prod.mk.injEq] at h
                obtain ⟨h1, h2, h3⟩ := h
                subst h1
                subst h2
                subst h3
                have hlen' : ss'.length = es'.length := by simpa using hlen
                obtain ⟨ihl, ihm⟩ := ih es' ss' _ _ _ hlen' hrec
                refine ⟨by simp [ihl], ?_⟩
                intro j hj
                obtain ⟨j0, js, rfl, hb, hjs⟩ := validIx_dest _ _ _ hj
                obtain ⟨hv, hd⟩ := ihm js hjs
                have hbnd := range_mem_bounds e start stop step j0 hvr hb.1 hb.2
                have hcomp : compItems (SliceItem.srange start stop step :: rest) (j0 :: js)
                    = (start * step.sign + j0 * step) :: compItems rest js := rfl
                refine ⟨?_, ?_⟩
                · rw [hcomp]
                  exact (validIx_cons_iff _ _ _ _).mpr ⟨hbnd, hv⟩
                · rw [hcomp, rawDot_cons, rawDot_cons, hd]
                  ring
            · rw [if_neg hvr] at h
              simp at h

/-- C6: for every array, every valid slice specification, and every
multi-index valid in the resulting view, reading the element through the
view equals reading the element of the original array at the composed
index (slice-then-index equals direct-index). -/
theorem slice_then_index {α : Type} (a v : NdArr α) (spec : List SliceItem)
    (j : List Int)
    (hw : a.geom.strides.length = a.geom.shape.length)
    (hs : sliceView a spec = Except.ok v)
    (hj : validIx v.geom.shape j = true) :
    readElem v j = readElem a (composedIx a.geom spec j) := by
  unfold sliceView at hs
  cases hg : sliceGeom a.geom spec with
  | error e =>
    rw [hg] at hs
    simp at hs
  | ok g =>
    rw [hg] at hs
    simp only [Except.ok.injEq] at hs
    subst hs
    unfold sliceGeom at hg
    cases he : expandEllipsis spec a.geom.shape.length with
    | error e =>
      rw [he] at hg
      simp at hg
    | ok items =>
      rw [he] at hg
      dsimp only at hg
      cases hap : applyItems items a.geom.shape a.geom.strides with
      | error e =>
        rw [hap] at hg
        simp at hg
      | ok trip =>
        obtain ⟨es2, ss2, d⟩ := trip
        rw [hap] at hg
        simp only [Except.ok.injEq] at hg
        subst hg
        have hcomp : composedIx a.geom spec j = compItems items j := by
          unfold composedIx
          rw [he]
        obtain ⟨hlen2, hmain⟩ := applyItems_spec items _ _ _ _ _ hw hap
        have hjv : validIx es2 j = true := hj
        obtain ⟨hvsrc, hdot⟩ := hmain j hjv
        rw [hcomp]
        have hj1 : j.length = es2.length := by
          have hx := hjv
          simp only [validIx, Bool.and_eq_true, beq_iff_eq] at hx
          exact hx.1
        have hj2 : validBounds es2 j = true := by
          have hx := hjv
          simp only [validIx, Bool.and_eq_true, beq_iff_eq] at hx
          exact hx.2
        have hv1 : (compItems items j).length = a.geom.shape.length := by
          have hx := hvsrc
          simp only [validIx, Bool.and_eq_true, beq_iff_eq] at hx
          exact hx.1
        have hv2 : validBounds a.geom.shape (compItems items j) = true := by
          have hx := hvsrc
          simp only [validIx, Bool.and_eq_true, beq_iff_eq] at hx
          exact hx.2
        have hov : offset_of es2 ss2 (a.geom.offset + d) j
            = Except.ok (a.geom.offset + d + rawDot j ss2) := by
          unfold offset_of
          rw [if_pos hj1, if_pos hj2]
        have hos : offset_of a.geom.shape a.geom.strides a.geom.offset
              (compItems items j)
            = Except.ok (a.geom.offset + d + rawDot j ss2) := by
          unfold offset_of
          rw [if_pos hv1, if_pos hv2, hdot]
          congr 1
          ring
        unfold readElem
        rw [show (⟨a.storage, ⟨es2, ss2, a.geom.offset + d⟩⟩ : NdArr α).geom
              = ⟨es2, ss2, a.geom.offset + d⟩ from rfl]
        rw [hov, hos]

/-- Witness for C6: slicing the 5x5 array with `[range(1,4,1), single(2)]`
and reading at view index `[1]` equals reading the source at the composed
index. -/
theorem slice_then_index_witness :
    (exArr.geom.strides.length = exArr.geom.shape.length ∧
      sliceView exArr exSpec = Except.ok exView ∧
      validIx exView.geom.shape [1] = true) ∧
    readElem exView [1] = readElem exArr (composedIx exArr.geom exSpec [1]) :=
  ⟨⟨rfl, rfl, rfl⟩, slice_then_index exArr exView exSpec [1] rfl rfl rfl⟩
